import Mathlib

/-!
Shallow embedding of the waffle event/admission-control package.

The Go sources modelled here:
* `ConcurrencyLimit` / `ConcurrencyGroups` (the keyed semaphore and the
  multi-group admission set) from the concurrency file;
* `Engine` (`Send`, `spawnAction`) from engine.go;
* `ActionBuilder` (`Concurrency`, `ConcurrencyGroup`, `Do`) from builder.go.

A Go `map[string]chan struct{}` whose channels are only used as bounded slot
holders is modelled as an association list from key to the current number of
occupied slots.  Go `nil` function values are modelled as `Option`.
-/

namespace Waffle

variable {Data A : Type}

/-- Number of occupied slots recorded for key `k` (the length of the Go
channel stored under `k`; `0` when the key has no entry). -/
def getCount : List (String × Nat) → String → Nat
  | [], _ => 0
  | (k', n) :: t, k => if k' = k then n else getCount t k

/-- Whether the table has an entry for `k` (the `ok` of a Go map lookup). -/
def hasKey : List (String × Nat) → String → Bool
  | [], _ => false
  | (k', _) :: t, k => k' = k || hasKey t k

/-- Store count `n` under key `k`, replacing an existing entry or appending a
new one (a Go map assignment). -/
def setCount : List (String × Nat) → String → Nat → List (String × Nat)
  | [], k, n => [(k, n)]
  | (k', m) :: t, k, n => if k' = k then (k', n) :: t else (k', m) :: setCount t k n

/-- Create the entry for `k` when absent, with zero occupied slots: the lazy
`make(chan struct{}, limit)` in `ConcurrencyLimit.TryAcquire`. -/
def ensureKey (s : List (String × Nat)) (k : String) : List (String × Nat) :=
  if hasKey s k then s else setCount s k 0

/-- Total number of occupied slots over the whole table. -/
def totalHeld (s : List (String × Nat)) : Nat :=
  (s.map Prod.snd).sum

/-- Go `ConcurrencyLimit`: a semaphore that limits the number of concurrent
actions, partitioned by a derived string key. -/
structure ConcurrencyLimit (Data : Type) where
  limit : Nat
  semaphores : List (String × Nat)
  keyFunc : Option (Data → String)

/-- Go `NewConcurrencyLimit`: fresh semaphore with the given limit and key
function and an empty key table. -/
def NewConcurrencyLimit (limit : Nat) (keyFunc : Option (Data → String)) :
    ConcurrencyLimit Data :=
  ⟨limit, [], keyFunc⟩

/-- Go `(*ConcurrencyLimit).getKey`: empty string when no key function is
set, otherwise the derived key of the payload. -/
def ConcurrencyLimit.getKey (c : ConcurrencyLimit Data) (d : Data) : String :=
  match c.keyFunc with
  | some f => f d
  | none => ""

/-- Go `(*ConcurrencyLimit).TryAcquire`: ensure the key's holder exists, then
occupy one slot iff fewer than `limit` slots are occupied; returns whether a
slot was taken, paired with the post-call semaphore state. -/
def ConcurrencyLimit.TryAcquire (c : ConcurrencyLimit Data) (d : Data) :
    Bool × ConcurrencyLimit Data :=
  if getCount (ensureKey c.semaphores (c.getKey d)) (c.getKey d) < c.limit then
    (true,
      { c with
        semaphores :=
          setCount (ensureKey c.semaphores (c.getKey d)) (c.getKey d)
            (getCount (ensureKey c.semaphores (c.getKey d)) (c.getKey d) + 1) })
  else
    (false, { c with semaphores := ensureKey c.semaphores (c.getKey d) })

/-- Go `(*ConcurrencyLimit).Release`: when the key has an entry and at least
one slot is occupied, free one slot; in every other case do nothing (the
non-blocking `select` with a `default` arm). -/
def ConcurrencyLimit.Release (c : ConcurrencyLimit Data) (d : Data) :
    ConcurrencyLimit Data :=
  if hasKey c.semaphores (c.getKey d) then
    if 0 < getCount c.semaphores (c.getKey d) then
      { c with
        semaphores :=
          setCount c.semaphores (c.getKey d)
            (getCount c.semaphores (c.getKey d) - 1) }
    else c
  else c

/-- One client-visible operation on a keyed semaphore. -/
inductive SemOp (Data : Type) where
  | tryAcquire (d : Data)
  | release (d : Data)

/-- Apply one operation to a semaphore (the boolean result of a try is
discarded; only the state evolution matters here). -/
def semStep (c : ConcurrencyLimit Data) : SemOp Data → ConcurrencyLimit Data
  | SemOp.tryAcquire d => (c.TryAcquire d).2
  | SemOp.release d => c.Release d

/-- Run a sequence of operations against a semaphore. -/
def runOps (c : ConcurrencyLimit Data) (ops : List (SemOp Data)) :
    ConcurrencyLimit Data :=
  ops.foldl semStep c

/-- Per-key held-slot counts never exceed the capacity. -/
def WithinLimit (c : ConcurrencyLimit Data) : Prop :=
  ∀ k, getCount c.semaphores k ≤ c.limit

/-- Go `ConcurrencyGroups`: a named collection of concurrency limits that must
all admit before an action may run.  The list fixes the (per-call) iteration
order that a Go map range would produce. -/
structure ConcurrencyGroups (Data : Type) where
  groups : List (String × ConcurrencyLimit Data)

/-- Go `NewConcurrencyGroups`. -/
def NewConcurrencyGroups : ConcurrencyGroups Data :=
  ⟨[]⟩

/-- Store a concurrency limit under a group name, replacing an existing entry
or appending a new one (a Go map assignment). -/
def setGroup : List (String × ConcurrencyLimit Data) → String → ConcurrencyLimit Data →
    List (String × ConcurrencyLimit Data)
  | [], name, c => [(name, c)]
  | (n', c') :: t, name, c =>
    if n' = name then (n', c) :: t else (n', c') :: setGroup t name c

/-- Go `(*ConcurrencyGroups).AddGlobalLimit`: install the reserved `""` group
with no key function. -/
def ConcurrencyGroups.AddGlobalLimit (g : ConcurrencyGroups Data) (limit : Nat) :
    ConcurrencyGroups Data :=
  ⟨setGroup g.groups "" (NewConcurrencyLimit limit none)⟩

/-- Go `(*ConcurrencyGroups).Add`: install a named group with a limit and key
function. -/
def ConcurrencyGroups.Add (g : ConcurrencyGroups Data) (groupName : String)
    (limit : Nat) (keyFunc : Option (Data → String)) : ConcurrencyGroups Data :=
  ⟨setGroup g.groups groupName (NewConcurrencyLimit limit keyFunc)⟩

/-- The acquisition loop of Go `(*ConcurrencyGroups).TryAcquire`: try each
group in order; on the first denial stop and release every group acquired so
far in this same call (the Go code runs `releaseFunc()` over `acquiredGroups`
after the loop; since each group's state is disjoint, releasing an acquired
group right where the tail fails yields the identical final state). -/
def acquireLoop (d : Data) : List (String × ConcurrencyLimit Data) →
    Bool × List (String × ConcurrencyLimit Data)
  | [] => (true, [])
  | (name, g) :: rest =>
    if (g.TryAcquire d).1 then
      if (acquireLoop d rest).1 then
        (true, (name, (g.TryAcquire d).2) :: (acquireLoop d rest).2)
      else
        (false, (name, ((g.TryAcquire d).2).Release d) :: (acquireLoop d rest).2)
    else
      (false, (name, (g.TryAcquire d).2) :: rest)

/-- The release closure the Go code hands back on a granted call: it calls
`Release` once on every acquired group (all groups, when granted) with the
same payload. -/
def releaseAll (d : Data) (gs : List (String × ConcurrencyLimit Data)) :
    List (String × ConcurrencyLimit Data) :=
  gs.map fun p => (p.1, p.2.Release d)

/-- Result of Go `(*ConcurrencyGroups).TryAcquire`: the `acquired` boolean,
the post-call state of the groups, and the returned `release` value —
`some` closure when granted, `none` for the Go `nil` returned on denial. -/
structure AcquireResult (Data : Type) where
  acquired : Bool
  groups : List (String × ConcurrencyLimit Data)
  release : Option (List (String × ConcurrencyLimit Data) →
    List (String × ConcurrencyLimit Data))

/-- Go `(*ConcurrencyGroups).TryAcquire`: run the acquisition loop; on
success return `(true, releaseFunc)`, on denial run the rollback (inside
`acquireLoop`) and return `(false, nil)`. -/
def ConcurrencyGroups.TryAcquire (g : ConcurrencyGroups Data) (d : Data) :
    AcquireResult Data :=
  if (acquireLoop d g.groups).1 then
    ⟨true, (acquireLoop d g.groups).2, some (releaseAll d)⟩
  else
    ⟨false, (acquireLoop d g.groups).2, none⟩

/-- Total held-slot count over every member gate and every key. -/
def cgTotalHeld (gs : List (String × ConcurrencyLimit Data)) : Nat :=
  (gs.map fun p => totalHeld p.2.semaphores).sum

/-- Go `Engine`: `triggers` maps an event key to THE action key bound to it
(`map[EventKey]ActionKey`), `actions` maps action keys to action values, and
`actionConcurrencyLimits` maps action keys to their admission configuration.
The action payload type `A` is opaque: dispatch never calls the action. -/
structure Engine (Data A : Type) where
  triggers : String → Option String
  actions : String → Option A
  actionConcurrencyLimits : String → Option (ConcurrencyGroups Data)

/-- Go `NewEngine`: empty maps. -/
def NewEngine : Engine Data A :=
  ⟨fun _ => none, fun _ => none, fun _ => none⟩

/-- Engine with the binding `ek ↦ some ak` added to `triggers`. -/
def withTrigger (e : Engine Data A) (ek ak : String) : Engine Data A :=
  { e with triggers := fun k => if k = ek then some ak else e.triggers k }

/-- Engine with the binding `ak ↦ some a` added to `actions`. -/
def withAction (e : Engine Data A) (ak : String) (a : A) : Engine Data A :=
  { e with actions := fun k => if k = ak then some a else e.actions k }

/-- Engine with the binding `ak ↦ some g` added to
`actionConcurrencyLimits`. -/
def withLimits (e : Engine Data A) (ak : String) (g : ConcurrencyGroups Data) :
    Engine Data A :=
  { e with
    actionConcurrencyLimits := fun k =>
      if k = ak then some g else e.actionConcurrencyLimits k }

/-- The `for _, eventKey := range ab.eventKeys` loop of `(*ActionBuilder).Do`:
bind every listed event key to the action key, overwriting any previous
binding. -/
def registerTriggers (keys : List String) (ak : String) (e : Engine Data A) :
    Engine Data A :=
  keys.foldl (fun acc ek => withTrigger acc ek ak) e

/-- Synchronous outcome of Go `(*Engine).spawnAction`: no action registered
under the key; nil-map panic (unreachable through the builder); admission
denied (silent drop); or the action spawned as a concurrent task. -/
inductive SpawnOutcome where
  | noAction
  | panicked
  | denied
  | spawned
deriving DecidableEq

/-- Go `(*Engine).spawnAction`: look up the action; when its admission set
has at least one group, ask it for admission and store the mutated group
state back; spawn only when admission was granted.  An empty admission set
skips the check entirely (`len(groups.groups) > 0`).  The spawned task and
its deferred release run after this synchronous step and are not part of
it. -/
def Engine.spawnAction (e : Engine Data A) (ak : String) (d : Data) :
    SpawnOutcome × Engine Data A :=
  match e.actions ak with
  | none => (SpawnOutcome.noAction, e)
  | some _ =>
    match e.actionConcurrencyLimits ak with
    | none => (SpawnOutcome.panicked, e)
    | some g =>
      if 0 < g.groups.length then
        if (g.TryAcquire d).acquired then
          (SpawnOutcome.spawned, withLimits e ak ⟨(g.TryAcquire d).groups⟩)
        else
          (SpawnOutcome.denied, withLimits e ak ⟨(g.TryAcquire d).groups⟩)
      else
        (SpawnOutcome.spawned, e)

/-- Go `(*Engine).Send`: returns `false` when no action key is bound to the
event, otherwise spawns the single bound action and returns `true`.  The
middle component records the spawn outcome (`none` when nothing was even
attempted). -/
def Engine.Send (e : Engine Data A) (ek : String) (d : Data) :
    Bool × Option SpawnOutcome × Engine Data A :=
  match e.triggers ek with
  | none => (false, none, e)
  | some ak => (true, some (e.spawnAction ak d).1, (e.spawnAction ak d).2)

/-- Go `ActionBuilder`: collects event keys, an admission configuration and
accumulated validation errors before committing into the engine. -/
structure ActionBuilder (Data A : Type) where
  engine : Engine Data A
  eventKeys : List String
  concurrencyGroups : ConcurrencyGroups Data
  errors : List String

/-- Go `(*Engine).On`: fresh builder over this engine. -/
def Engine.On (e : Engine Data A) (eventKeys : List String) :
    ActionBuilder Data A :=
  ⟨e, eventKeys, NewConcurrencyGroups, []⟩

/-- Go `(*ActionBuilder).Concurrency`: record an error for a zero limit,
otherwise install the global (`""`) group. -/
def ActionBuilder.Concurrency (ab : ActionBuilder Data A) (limit : Nat) :
    ActionBuilder Data A :=
  if limit = 0 then
    { ab with errors := ab.errors ++ ["Concurrency: limit must be non-negative"] }
  else
    { ab with concurrencyGroups := ab.concurrencyGroups.AddGlobalLimit limit }

/-- Go `(*ActionBuilder).ConcurrencyGroup`: validate limit, key function and
group name in the source's order, recording an error and skipping the
installation on the first violation. -/
def ActionBuilder.ConcurrencyGroup (ab : ActionBuilder Data A)
    (groupName : String) (limit : Nat) (keyFunc : Option (Data → String)) :
    ActionBuilder Data A :=
  if limit = 0 then
    { ab with errors := ab.errors ++ ["ConcurrencyGroup: limit must be greater than 0"] }
  else
    match keyFunc with
    | none =>
      { ab with errors := ab.errors ++ ["ConcurrencyGroup: keyFunc must be provided"] }
    | some f =>
      if groupName = "" then
        { ab with errors := ab.errors ++ ["ConcurrencyGroup: groupName must be provided"] }
      else
        { ab with concurrencyGroups := ab.concurrencyGroups.Add groupName limit (some f) }

/-- The error list `(*ActionBuilder).Do` holds right before its
`len(ab.errors) > 0` check: the accumulated builder errors extended by the
`Do`-level validations, in the source's order. -/
def collectDoErrors (ab : ActionBuilder Data A) (actionKey : String)
    (action : Option A) : List String :=
  ab.errors
    ++ (if actionKey = "" then ["Do: actionKey must be provided"] else [])
    ++ (if ab.eventKeys.isEmpty then ["Do: eventKeys must be provided"] else [])
    ++ (if action.isNone then ["Do: action must be provided"] else [])

/-- Go `(*ActionBuilder).Do`: when any validation error accumulated, return
them all as one aggregate error and leave the engine untouched; otherwise
commit the action, every trigger binding, and the admission configuration.
A `none` action always lands in the error path, hence the commit only ever
runs with a concrete action value. -/
def ActionBuilder.Do (ab : ActionBuilder Data A) (actionKey : String)
    (action : Option A) : Option (List String) × Engine Data A :=
  match action with
  | none => (some (collectDoErrors ab actionKey none), ab.engine)
  | some a =>
    if collectDoErrors ab actionKey (some a) = [] then
      (none,
        withLimits
          (registerTriggers ab.eventKeys actionKey (withAction ab.engine actionKey a))
          actionKey ab.concurrencyGroups)
    else
      (some (collectDoErrors ab actionKey (some a)), ab.engine)

/-- Concrete admission set whose second gate has capacity 0, so a full
acquisition attempt is always denied after the first gate admitted. -/
def cgDenyExample : ConcurrencyGroups String :=
  ⟨[("a", NewConcurrencyLimit 1 none), ("b", NewConcurrencyLimit 0 none)]⟩

/-- Engine after registering action `"a1"` on event `"ev"`. -/
def engineStep1 : Engine String Nat :=
  ((NewEngine.On ["ev"]).Do "a1" (some 1)).2

/-- Engine after additionally registering action `"a2"` on the same event
`"ev"`. -/
def engineStep2 : Engine String Nat :=
  ((engineStep1.On ["ev"]).Do "a2" (some 2)).2

/-- Builder carrying one accumulated violation (a zero concurrency limit). -/
def builderViolation : ActionBuilder String Nat :=
  (NewEngine.On ["ev"]).Concurrency 0

/-- Capacity-1 semaphore after one successful acquisition followed by its
release: zero slots held, so a further release is an over-release. -/
def semAfterCycle : ConcurrencyLimit String :=
  runOps (NewConcurrencyLimit 1 none) [SemOp.tryAcquire "x", SemOp.release "x"]

/-! ## Supporting lemmas: the per-key slot table -/

theorem getCount_setCount (s : List (String × Nat)) (k k' : String) (n : Nat) :
    getCount (setCount s k n) k' = if k' = k then n else getCount s k' := by
  induction s with
  | nil =>
    simp only [setCount, getCount]
    by_cases h : k = k'
    · subst h; simp
    · rw [if_neg h, if_neg fun hh => h hh.symm]
  | cons p t ih =>
    obtain ⟨k0, m⟩ := p
    simp only [setCount]
    by_cases h0 : k0 = k
    · subst h0
      simp only [if_pos rfl, getCount]
      by_cases h1 : k0 = k'
      · subst h1; simp
      · rw [if_neg h1, if_neg h1, if_neg fun hh => h1 hh.symm]
    · rw [if_neg h0]
      simp only [getCount, ih]
      by_cases h1 : k0 = k'
      · subst h1
        simp [getCount, h0]
      · rw [if_neg h1, if_neg h1]

theorem getCount_eq_zero_of_hasKey_eq_false (s : List (String × Nat)) (k : String)
    (h : hasKey s k = false) : getCount s k = 0 := by
  induction s with
  | nil => rfl
  | cons p t ih =>
    obtain ⟨k0, m⟩ := p
    simp only [hasKey, Bool.or_eq_false_iff] at h
    simp only [getCount]
    rw [if_neg (by simpa using h.1)]
    exact ih h.2

theorem hasKey_of_getCount_pos (s : List (String × Nat)) (k : String)
    (h : 0 < getCount s k) : hasKey s k = true := by
  by_contra hc
  rw [getCount_eq_zero_of_hasKey_eq_false s k (by simpa using hc)] at h
  exact Nat.lt_irrefl 0 h

theorem getCount_ensureKey (s : List (String × Nat)) (k k' : String) :
    getCount (ensureKey s k) k' = getCount s k' := by
  unfold ensureKey
  by_cases h : hasKey s k
  · rw [if_pos h]
  · rw [if_neg (by simpa using h), getCount_setCount]
    by_cases h1 : k' = k
    · subst h1
      rw [if_pos rfl, getCount_eq_zero_of_hasKey_eq_false s k' (by simpa using h)]
    · rw [if_neg h1]

theorem totalHeld_setCount (s : List (String × Nat)) (k : String) (n : Nat) :
    totalHeld (setCount s k n) + getCount s k = totalHeld s + n := by
  induction s with
  | nil => simp [setCount, getCount, totalHeld]
  | cons p t ih =>
    obtain ⟨k0, m⟩ := p
    simp only [setCount, getCount]
    by_cases h0 : k0 = k
    · subst h0
      rw [if_pos rfl, if_pos rfl]
      simp only [totalHeld, List.map_cons, List.sum_cons]
      omega
    · rw [if_neg h0, if_neg h0]
      simp only [totalHeld, List.map_cons, List.sum_cons] at ih ⊢
      omega

theorem totalHeld_ensureKey (s : List (String × Nat)) (k : String) :
    totalHeld (ensureKey s k) = totalHeld s := by
  unfold ensureKey
  by_cases h : hasKey s k
  · rw [if_pos h]
  · rw [if_neg (by simpa using h)]
    have := totalHeld_setCount s k 0
    rw [getCount_eq_zero_of_hasKey_eq_false s k (by simpa using h)] at this
    omega

/-! ## Supporting lemmas: the keyed semaphore -/

theorem TryAcquire_limit (c : ConcurrencyLimit Data) (d : Data) :
    ((c.TryAcquire d).2).limit = c.limit := by
  unfold ConcurrencyLimit.TryAcquire
  split <;> rfl

theorem TryAcquire_keyFunc (c : ConcurrencyLimit Data) (d : Data) :
    ((c.TryAcquire d).2).keyFunc = c.keyFunc := by
  unfold ConcurrencyLimit.TryAcquire
  split <;> rfl

theorem Release_limit (c : ConcurrencyLimit Data) (d : Data) :
    (c.Release d).limit = c.limit := by
  unfold ConcurrencyLimit.Release
  split <;> [skip; rfl]
  split <;> rfl

theorem Release_keyFunc (c : ConcurrencyLimit Data) (d : Data) :
    (c.Release d).keyFunc = c.keyFunc := by
  unfold ConcurrencyLimit.Release
  split <;> [skip; rfl]
  split <;> rfl

theorem getKey_of_keyFunc_eq (c c' : ConcurrencyLimit Data) (d : Data)
    (h : c'.keyFunc = c.keyFunc) : c'.getKey d = c.getKey d := by
  unfold ConcurrencyLimit.getKey
  rw [h]

theorem TryAcquire_eq_pos (c : ConcurrencyLimit Data) (d : Data)
    (hlt : getCount c.semaphores (c.getKey d) < c.limit) :
    c.TryAcquire d =
      (true,
        { c with
          semaphores :=
            setCount (ensureKey c.semaphores (c.getKey d)) (c.getKey d)
              (getCount c.semaphores (c.getKey d) + 1) }) := by
  unfold ConcurrencyLimit.TryAcquire
  rw [getCount_ensureKey, if_pos hlt]

theorem TryAcquire_eq_neg (c : ConcurrencyLimit Data) (d : Data)
    (hlt : ¬getCount c.semaphores (c.getKey d) < c.limit) :
    c.TryAcquire d = (false, { c with semaphores := ensureKey c.semaphores (c.getKey d) }) := by
  unfold ConcurrencyLimit.TryAcquire
  rw [getCount_ensureKey, if_neg hlt]

theorem TryAcquire_fst_iff (c : ConcurrencyLimit Data) (d : Data) :
    (c.TryAcquire d).1 = true ↔ getCount c.semaphores (c.getKey d) < c.limit := by
  by_cases hlt : getCount c.semaphores (c.getKey d) < c.limit
  · rw [TryAcquire_eq_pos c d hlt]; simpa using hlt
  · rw [TryAcquire_eq_neg c d hlt]; simpa using hlt

theorem getCount_TryAcquire_true (c : ConcurrencyLimit Data) (d : Data) (k' : String)
    (h : (c.TryAcquire d).1 = true) :
    getCount ((c.TryAcquire d).2).semaphores k' =
      if k' = c.getKey d then getCount c.semaphores k' + 1
      else getCount c.semaphores k' := by
  have hlt := (TryAcquire_fst_iff c d).mp h
  rw [TryAcquire_eq_pos c d hlt]
  simp only [getCount_setCount, getCount_ensureKey]
  by_cases h1 : k' = c.getKey d
  · subst h1; simp
  · rw [if_neg h1, if_neg h1]

theorem getCount_TryAcquire_false (c : ConcurrencyLimit Data) (d : Data) (k' : String)
    (h : (c.TryAcquire d).1 = false) :
    getCount ((c.TryAcquire d).2).semaphores k' = getCount c.semaphores k' := by
  have hlt : ¬getCount c.semaphores (c.getKey d) < c.limit := by
    intro hc
    rw [(TryAcquire_fst_iff c d).mpr hc] at h
    simp at h
  rw [TryAcquire_eq_neg c d hlt]
  simp only [getCount_ensureKey]

theorem totalHeld_TryAcquire_true (c : ConcurrencyLimit Data) (d : Data)
    (h : (c.TryAcquire d).1 = true) :
    totalHeld ((c.TryAcquire d).2).semaphores = totalHeld c.semaphores + 1 := by
  have hlt := (TryAcquire_fst_iff c d).mp h
  rw [TryAcquire_eq_pos c d hlt]
  have hs := totalHeld_setCount (ensureKey c.semaphores (c.getKey d)) (c.getKey d)
    (getCount c.semaphores (c.getKey d) + 1)
  have he := totalHeld_ensureKey c.semaphores (c.getKey d)
  have hg := getCount_ensureKey c.semaphores (c.getKey d) (c.getKey d)
  simp only
  omega

theorem totalHeld_TryAcquire_false (c : ConcurrencyLimit Data) (d : Data)
    (h : (c.TryAcquire d).1 = false) :
    totalHeld ((c.TryAcquire d).2).semaphores = totalHeld c.semaphores := by
  have hlt : ¬getCount c.semaphores (c.getKey d) < c.limit := by
    intro hc
    rw [(TryAcquire_fst_iff c d).mpr hc] at h
    simp at h
  rw [TryAcquire_eq_neg c d hlt]
  exact totalHeld_ensureKey c.semaphores (c.getKey d)

theorem getCount_Release (c : ConcurrencyLimit Data) (d : Data) (k' : String) :
    getCount (c.Release d).semaphores k' =
      if k' = c.getKey d then getCount c.semaphores k' - 1
      else getCount c.semaphores k' := by
  unfold ConcurrencyLimit.Release
  by_cases hk : hasKey c.semaphores (c.getKey d)
  · rw [if_pos hk]
    by_cases hp : 0 < getCount c.semaphores (c.getKey d)
    · rw [if_pos hp]
      simp only [getCount_setCount]
      by_cases h1 : k' = c.getKey d
      · subst h1; simp
      · rw [if_neg h1, if_neg h1]
    · rw [if_neg hp]
      by_cases h1 : k' = c.getKey d
      · subst h1; rw [if_pos rfl]; omega
      · rw [if_neg h1]
  · rw [if_neg (by simpa using hk)]
    by_cases h1 : k' = c.getKey d
    · subst h1
      rw [if_pos rfl, getCount_eq_zero_of_hasKey_eq_false _ _ (by simpa using hk)]
    · rw [if_neg h1]

theorem totalHeld_Release_pos (c : ConcurrencyLimit Data) (d : Data)
    (h : 0 < getCount c.semaphores (c.getKey d)) :
    totalHeld (c.Release d).semaphores + 1 = totalHeld c.semaphores := by
  unfold ConcurrencyLimit.Release
  rw [if_pos (hasKey_of_getCount_pos _ _ h), if_pos h]
  have hs := totalHeld_setCount c.semaphores (c.getKey d)
    (getCount c.semaphores (c.getKey d) - 1)
  simp only
  omega

theorem totalHeld_rollback (c : ConcurrencyLimit Data) (d : Data)
    (h : (c.TryAcquire d).1 = true) :
    totalHeld (((c.TryAcquire d).2).Release d).semaphores = totalHeld c.semaphores := by
  have hkey : ((c.TryAcquire d).2).getKey d = c.getKey d :=
    getKey_of_keyFunc_eq c _ d (TryAcquire_keyFunc c d)
  have hcount : 0 < getCount ((c.TryAcquire d).2).semaphores (((c.TryAcquire d).2).getKey d) := by
    rw [hkey, getCount_TryAcquire_true c d _ h, if_pos rfl]
    omega
  have hrel := totalHeld_Release_pos ((c.TryAcquire d).2) d hcount
  have hacq := totalHeld_TryAcquire_true c d h
  omega

/-! ## Supporting lemmas: the capacity invariant -/

theorem WithinLimit_TryAcquire (c : ConcurrencyLimit Data) (d : Data)
    (h : WithinLimit c) : WithinLimit (c.TryAcquire d).2 := by
  intro k
  rw [TryAcquire_limit]
  rcases hb : (c.TryAcquire d).1 with _ | _
  · rw [getCount_TryAcquire_false c d k hb]
    exact h k
  · rw [getCount_TryAcquire_true c d k hb]
    by_cases h1 : k = c.getKey d
    · rw [if_pos h1]
      have := (TryAcquire_fst_iff c d).mp hb
      subst h1
      omega
    · rw [if_neg h1]
      exact h k

theorem WithinLimit_Release (c : ConcurrencyLimit Data) (d : Data)
    (h : WithinLimit c) : WithinLimit (c.Release d) := by
  intro k
  rw [Release_limit, getCount_Release]
  by_cases h1 : k = c.getKey d
  · rw [if_pos h1]
    exact le_trans (Nat.sub_le _ _) (h k)
  · rw [if_neg h1]
    exact h k

theorem WithinLimit_runOps (c : ConcurrencyLimit Data) (ops : List (SemOp Data))
    (h : WithinLimit c) : WithinLimit (runOps c ops) := by
  induction ops generalizing c with
  | nil => exact h
  | cons op t ih =>
    rcases op with d | d
    · exact ih _ (WithinLimit_TryAcquire c d h)
    · exact ih _ (WithinLimit_Release c d h)

theorem runOps_limit (c : ConcurrencyLimit Data) (ops : List (SemOp Data)) :
    (runOps c ops).limit = c.limit := by
  induction ops generalizing c with
  | nil => rfl
  | cons op t ih =>
    rcases op with d | d
    · exact (ih _).trans (TryAcquire_limit c d)
    · exact (ih _).trans (Release_limit c d)

theorem WithinLimit_new (N : Nat) (f : Option (Data → String)) :
    WithinLimit (NewConcurrencyLimit N f) := by
  intro k
  simp [NewConcurrencyLimit, getCount]

/-! ## Claim theorems: the keyed semaphore -/

/-- Claim C1: for every keyed semaphore of capacity `N` and every key, after
any sequence of `TryAcquire` and `Release` operations starting from a fresh
semaphore, the held-slot count of that key is at most `N`. -/
theorem heldCount_le_capacity (N : Nat) (f : Option (Data → String))
    (ops : List (SemOp Data)) (k : String) :
    getCount (runOps (NewConcurrencyLimit N f) ops).semaphores k ≤ N := by
  have h := WithinLimit_runOps (NewConcurrencyLimit N f) ops (WithinLimit_new N f) k
  rwa [runOps_limit] at h

/-- Claim C4: a keyed semaphore constructed with capacity 0 denies every
`TryAcquire`, for every key-derivation function, payload and prior usage
history. -/
theorem zero_capacity_always_denies (f : Option (Data → String))
    (ops : List (SemOp Data)) (d : Data) :
    ((runOps (NewConcurrencyLimit 0 f) ops).TryAcquire d).1 = false := by
  rcases hb : ((runOps (NewConcurrencyLimit 0 f) ops).TryAcquire d).1 with _ | _
  · rfl
  · have hlt := (TryAcquire_fst_iff _ d).mp hb
    rw [runOps_limit] at hlt
    exact absurd hlt (Nat.not_lt_zero _)

/-- Claim C5: `Release` on a key whose held-slot count is zero — a key never
acquired, or one already released as often as it was acquired — is a no-op:
it returns the semaphore state completely unchanged (so no count ever drops
below zero, and no error or blocking is possible in this total function). -/
theorem release_overrelease_noop (c : ConcurrencyLimit Data) (d : Data)
    (h : getCount c.semaphores (c.getKey d) = 0) : c.Release d = c := by
  unfold ConcurrencyLimit.Release
  by_cases hk : hasKey c.semaphores (c.getKey d)
  · rw [if_pos hk, if_neg (by omega)]
  · rw [if_neg (by simpa using hk)]

/-- Witness for C5: a capacity-1 semaphore after an acquire/release cycle has
zero held slots for the (implicit) key, and a further over-release leaves the
state unchanged. -/
theorem release_overrelease_noop_witness :
    getCount semAfterCycle.semaphores (semAfterCycle.getKey "x") = 0 ∧
      semAfterCycle.Release "x" = semAfterCycle :=
  ⟨by decide, release_overrelease_noop semAfterCycle "x" (by decide)⟩

/-! ## Supporting lemmas: the admission set -/

theorem cgTotalHeld_cons (p : String × ConcurrencyLimit Data)
    (t : List (String × ConcurrencyLimit Data)) :
    cgTotalHeld (p :: t) = totalHeld p.2.semaphores + cgTotalHeld t := by
  simp [cgTotalHeld]

theorem acquireLoop_false_total (d : Data)
    (gs : List (String × ConcurrencyLimit Data))
    (h : (acquireLoop d gs).1 = false) :
    cgTotalHeld (acquireLoop d gs).2 = cgTotalHeld gs := by
  induction gs with
  | nil => simp [acquireLoop] at h
  | cons p t ih =>
    obtain ⟨name, g⟩ := p
    by_cases hg : (g.TryAcquire d).1
    · by_cases hr : (acquireLoop d t).1
      · simp [acquireLoop, hg, hr] at h
      · rw [show acquireLoop d ((name, g) :: t) =
            (false, (name, ((g.TryAcquire d).2).Release d) :: (acquireLoop d t).2) by
          simp [acquireLoop, hg, hr]]
        rw [cgTotalHeld_cons, cgTotalHeld_cons]
        rw [ih (by simpa using hr)]
        simp only
        rw [totalHeld_rollback g d hg]
    · rw [show acquireLoop d ((name, g) :: t) =
          (false, (name, (g.TryAcquire d).2) :: t) by simp [acquireLoop, hg]]
      rw [cgTotalHeld_cons, cgTotalHeld_cons]
      simp only
      rw [totalHeld_TryAcquire_false g d (by simpa using hg)]

/-- Claim C2: a denied `ConcurrencyGroups.TryAcquire` call leaves the total
held-slot count, summed over all member gates and keys, exactly as it was
before the call — no slots leak from partial acquisition. -/
theorem denied_acquire_leaves_total_unchanged (g : ConcurrencyGroups Data)
    (d : Data) (h : (g.TryAcquire d).acquired = false) :
    cgTotalHeld (g.TryAcquire d).groups = cgTotalHeld g.groups := by
  by_cases hl : (acquireLoop d g.groups).1
  · simp [ConcurrencyGroups.TryAcquire, hl] at h
  · rw [show (g.TryAcquire d).groups = (acquireLoop d g.groups).2 by
      simp [ConcurrencyGroups.TryAcquire, hl]]
    exact acquireLoop_false_total d g.groups (by simpa using hl)

/-- Witness for C2: the two-gate example is denied by its capacity-0 gate
after its capacity-1 gate admitted, yet the total held-slot count (zero) is
unchanged. -/
theorem denied_acquire_leaves_total_unchanged_witness :
    (cgDenyExample.TryAcquire "x").acquired = false ∧
      cgTotalHeld (cgDenyExample.TryAcquire "x").groups = cgTotalHeld cgDenyExample.groups :=
  ⟨by decide, denied_acquire_leaves_total_unchanged cgDenyExample "x" (by decide)⟩

/-- Counterexample to C3 as stated: on denial the code returns the Go `nil`
(`none`) as the release value, not a callable no-op closure. -/
theorem denied_release_is_nil_counterexample :
    (cgDenyExample.TryAcquire "x").acquired = false ∧
      (cgDenyExample.TryAcquire "x").release = none := by
  constructor
  · decide
  · rw [show cgDenyExample.TryAcquire "x" =
      ⟨false, (acquireLoop "x" cgDenyExample.groups).2, none⟩ by
        simp [ConcurrencyGroups.TryAcquire]
        decide]

theorem acquireLoop_false_shape (d : Data)
    (gs : List (String × ConcurrencyLimit Data))
    (h : (acquireLoop d gs).1 = false) :
    ∃ pre p post,
      gs = pre ++ p :: post ∧
        (∀ q ∈ pre, (q.2.TryAcquire d).1 = true) ∧
        (p.2.TryAcquire d).1 = false ∧
        (acquireLoop d gs).2 =
          pre.map (fun q => (q.1, ((q.2.TryAcquire d).2).Release d)) ++
            (p.1, (p.2.TryAcquire d).2) :: post := by
  induction gs with
  | nil => simp [acquireLoop] at h
  | cons hd t ih =>
    obtain ⟨name, g⟩ := hd
    by_cases hg : (g.TryAcquire d).1
    · by_cases hr : (acquireLoop d t).1
      · simp [acquireLoop, hg, hr] at h
      · obtain ⟨pre, p, post, hsplit, hpre, hdeny, hres⟩ := ih (by simpa using hr)
        refine ⟨(name, g) :: pre, p, post, ?_, ?_, hdeny, ?_⟩
        · rw [List.cons_append, hsplit]
        · intro q hq
          rcases List.mem_cons.mp hq with hq | hq
          · subst hq; exact hg
          · exact hpre q hq
        · rw [show acquireLoop d ((name, g) :: t) =
              (false, (name, ((g.TryAcquire d).2).Release d) :: (acquireLoop d t).2) by
            simp [acquireLoop, hg, hr]]
          simp only [List.map_cons, List.cons_append]
          rw [hres]
    · refine ⟨[], (name, g), t, rfl, by simp, by simpa using hg, ?_⟩
      rw [show acquireLoop d ((name, g) :: t) =
          (false, (name, (g.TryAcquire d).2) :: t) by simp [acquireLoop, hg]]
      simp

/-- Claim C3 (amended): on denial `ConcurrencyGroups.TryAcquire` stops at the
first gate that denies — every gate before it admitted and every gate after
it is untouched — releases each gate it acquired during this same call, and
returns `granted = false` paired with an absent (`nil`) release value rather
than a callable closure. -/
theorem denied_acquire_stops_and_rolls_back (g : ConcurrencyGroups Data)
    (d : Data) (h : (g.TryAcquire d).acquired = false) :
    (g.TryAcquire d).release = none ∧
      ∃ pre p post,
        g.groups = pre ++ p :: post ∧
          (∀ q ∈ pre, (q.2.TryAcquire d).1 = true) ∧
          (p.2.TryAcquire d).1 = false ∧
          (g.TryAcquire d).groups =
            pre.map (fun q => (q.1, ((q.2.TryAcquire d).2).Release d)) ++
              (p.1, (p.2.TryAcquire d).2) :: post := by
  by_cases hl : (acquireLoop d g.groups).1
  · simp [ConcurrencyGroups.TryAcquire, hl] at h
  · constructor
    · simp [ConcurrencyGroups.TryAcquire, hl]
    · rw [show (g.TryAcquire d).groups = (acquireLoop d g.groups).2 by
        simp [ConcurrencyGroups.TryAcquire, hl]]
      exact acquireLoop_false_shape d g.groups (by simpa using hl)

/-- Witness for the amended C3 at the two-gate example: the call is denied,
so the theorem yields the nil release value and the rollback shape. -/
theorem denied_acquire_stops_and_rolls_back_witness :
    (cgDenyExample.TryAcquire "x").acquired = false ∧
      ((cgDenyExample.TryAcquire "x").release = none ∧
        ∃ pre p post,
          cgDenyExample.groups = pre ++ p :: post ∧
            (∀ q ∈ pre, (q.2.TryAcquire "x").1 = true) ∧
            (p.2.TryAcquire "x").1 = false ∧
            (cgDenyExample.TryAcquire "x").groups =
              pre.map (fun q => (q.1, ((q.2.TryAcquire "x").2).Release "x")) ++
                (p.1, (p.2.TryAcquire "x").2) :: post) :=
  ⟨by decide, denied_acquire_stops_and_rolls_back cgDenyExample "x" (by decide)⟩

/-! ## Supporting lemmas: engine and builder -/

theorem registerTriggers_cons (ek : String) (t : List String) (ak : String)
    (e : Engine Data A) :
    registerTriggers (ek :: t) ak e = registerTriggers t ak (withTrigger e ek ak) :=
  rfl

theorem registerTriggers_triggers (keys : List String) (ak : String)
    (e : Engine Data A) (k : String) :
    (registerTriggers keys ak e).triggers k =
      if k ∈ keys then some ak else e.triggers k := by
  induction keys generalizing e with
  | nil => simp [registerTriggers]
  | cons ek t ih =>
    rw [registerTriggers_cons, ih]
    by_cases h1 : k ∈ t
    · rw [if_pos h1, if_pos (List.mem_cons.mpr (Or.inr h1))]
    · rw [if_neg h1]
      by_cases h2 : k = ek
      · subst h2
        rw [if_pos (List.mem_cons.mpr (Or.inl rfl))]
        simp [withTrigger]
      · rw [if_neg (by simp [List.mem_cons, h1, h2])]
        simp [withTrigger, h2]

theorem registerTriggers_actions (keys : List String) (ak : String) (e : Engine Data A) :
    (registerTriggers keys ak e).actions = e.actions := by
  induction keys generalizing e with
  | nil => rfl
  | cons ek t ih =>
    rw [registerTriggers_cons, ih]
    rfl

theorem collectDoErrors_prefix (ab : ActionBuilder Data A) (actionKey : String)
    (action : Option A) :
    ∃ rest, collectDoErrors ab actionKey action = ab.errors ++ rest :=
  ⟨(if actionKey = "" then ["Do: actionKey must be provided"] else []) ++
      (if ab.eventKeys.isEmpty then ["Do: eventKeys must be provided"] else []) ++
      (if action.isNone then ["Do: action must be provided"] else []),
    by simp [collectDoErrors, List.append_assoc]⟩

theorem collectDoErrors_ne_nil (ab : ActionBuilder Data A) (actionKey : String)
    (action : Option A)
    (h : ab.errors ≠ [] ∨ actionKey = "" ∨ ab.eventKeys = [] ∨ action = none) :
    collectDoErrors ab actionKey action ≠ [] := by
  intro hc
  simp only [collectDoErrors, List.append_eq_nil] at hc
  obtain ⟨⟨⟨h1, h2⟩, h3⟩, h4⟩ := hc
  rcases h with h | h | h | h
  · exact h h1
  · rw [if_pos h] at h2
    exact List.cons_ne_nil _ _ h2
  · rw [if_pos (by simp [h])] at h3
    exact List.cons_ne_nil _ _ h3
  · rw [h] at h4
    simp at h4

/-! ## Claim theorems: engine and builder -/

/-- Claim C7: `Send` returns `false` exactly when no action key is bound to
the event (and then touches nothing and spawns nothing); whenever an action
key is bound it returns `true`, whatever the admission outcome. -/
theorem send_false_iff_unbound (e : Engine Data A) (ek : String) (d : Data) :
    ((e.Send ek d).1 = false ↔ e.triggers ek = none) ∧
      (e.triggers ek = none → e.Send ek d = (false, none, e)) ∧
      ∀ ak, e.triggers ek = some ak → (e.Send ek d).1 = true := by
  rcases htr : e.triggers ek with _ | ak
  · exact ⟨by simp [Engine.Send, htr], fun _ => by simp [Engine.Send, htr],
      fun ak hak => Option.noConfusion hak⟩
  · exact ⟨by simp [Engine.Send, htr], fun hc => Option.noConfusion hc,
      fun ak' hak' => by simp [Engine.Send, htr]⟩

/-- Witness for C7: an unregistered event returns `false` with no spawn and
an unchanged engine; a registered one returns `true`. -/
theorem send_false_iff_unbound_witness :
    engineStep2.Send "nope" "d" = (false, none, engineStep2) ∧
      (engineStep2.Send "ev" "d").1 = true :=
  ⟨(send_false_iff_unbound engineStep2 "nope" "d").2.1 (by decide),
    (send_false_iff_unbound engineStep2 "ev" "d").2.2 "a2" (by decide)⟩

/-- Claim C6: an admission set with zero member groups always grants, and the
dispatcher's fast path treats it as an unconditional grant: `spawnAction`
spawns and leaves the engine unchanged. -/
theorem empty_admission_always_grants (d : Data) :
    (∀ g : ConcurrencyGroups Data, g.groups = [] → (g.TryAcquire d).acquired = true) ∧
      ∀ (e : Engine Data A) (ak : String) (a : A) (g : ConcurrencyGroups Data),
        e.actions ak = some a → e.actionConcurrencyLimits ak = some g →
        g.groups = [] → e.spawnAction ak d = (SpawnOutcome.spawned, e) := by
  constructor
  · intro g hg
    simp [ConcurrencyGroups.TryAcquire, hg, acquireLoop]
  · intro e ak a g ha hl hg
    simp [Engine.spawnAction, ha, hl, hg]

/-- Witness for C6: the empty admission set grants, and the engine with two
registrations and no concurrency configuration spawns unconditionally. -/
theorem empty_admission_always_grants_witness :
    ((NewConcurrencyGroups : ConcurrencyGroups String).TryAcquire "x").acquired = true ∧
      engineStep2.spawnAction "a2" "x" = (SpawnOutcome.spawned, engineStep2) :=
  ⟨(empty_admission_always_grants (A := Nat) ("x" : String)).1
      NewConcurrencyGroups rfl,
    (empty_admission_always_grants (A := Nat) ("x" : String)).2 engineStep2 "a2" 2
      NewConcurrencyGroups (by decide) rfl rfl⟩

/-- Claim C8: `Do` in the presence of any accumulated or `Do`-level violation
returns the single aggregate error carrying every accumulated violation (the
builder's earlier errors form its prefix) and leaves the engine — all three
of its maps — completely unchanged. -/
theorem do_with_violation_has_no_effect (ab : ActionBuilder Data A)
    (actionKey : String) (action : Option A)
    (h : ab.errors ≠ [] ∨ actionKey = "" ∨ ab.eventKeys = [] ∨ action = none) :
    ab.Do actionKey action = (some (collectDoErrors ab actionKey action), ab.engine) ∧
      collectDoErrors ab actionKey action ≠ [] ∧
      ∃ rest, collectDoErrors ab actionKey action = ab.errors ++ rest := by
  have hne := collectDoErrors_ne_nil ab actionKey action h
  refine ⟨?_, hne, collectDoErrors_prefix ab actionKey action⟩
  rcases action with _ | a
  · rfl
  · simp [ActionBuilder.Do, hne]

/-- Witness for C8: a builder carrying a zero-limit violation; `Do` returns
the aggregate error and the engine is untouched. -/
theorem do_with_violation_has_no_effect_witness :
    builderViolation.Do "ak" (some 5) =
        (some (collectDoErrors builderViolation "ak" (some 5)), builderViolation.engine) ∧
      collectDoErrors builderViolation "ak" (some 5) ≠ [] ∧
      ∃ rest, collectDoErrors builderViolation "ak" (some 5) =
        builderViolation.errors ++ rest :=
  do_with_violation_has_no_effect builderViolation "ak" (some 5) (Or.inl (by decide))

/-- Claim C10: a successful `Do` binds every listed event key to its action
key, overwriting whatever action key was bound before (last writer wins), and
overwrites the action value and admission configuration stored under the
action key. -/
theorem do_replaces_bindings (ab : ActionBuilder Data A) (actionKey : String)
    (a : A) (ek : String) (hok : (ab.Do actionKey (some a)).1 = none)
    (hek : ek ∈ ab.eventKeys) :
    (ab.Do actionKey (some a)).2.triggers ek = some actionKey ∧
      (ab.Do actionKey (some a)).2.actions actionKey = some a ∧
      (ab.Do actionKey (some a)).2.actionConcurrencyLimits actionKey =
        some ab.concurrencyGroups := by
  by_cases hc : collectDoErrors ab actionKey (some a) = []
  · have h2 : (ab.Do actionKey (some a)).2 =
        withLimits
          (registerTriggers ab.eventKeys actionKey (withAction ab.engine actionKey a))
          actionKey ab.concurrencyGroups := by
      simp [ActionBuilder.Do, hc]
    rw [h2]
    refine ⟨?_, ?_, ?_⟩
    · show (registerTriggers ab.eventKeys actionKey
        (withAction ab.engine actionKey a)).triggers ek = some actionKey
      rw [registerTriggers_triggers, if_pos hek]
    · show (registerTriggers ab.eventKeys actionKey
        (withAction ab.engine actionKey a)).actions actionKey = some a
      rw [registerTriggers_actions]
      simp [withAction]
    · simp [withLimits]
  · simp [ActionBuilder.Do, hc] at hok

/-- Witness for C10: re-registering event `"ev"` under action `"a2"` binds it
to `"a2"` and installs the new action value and admission configuration. -/
theorem do_replaces_bindings_witness :
    ((engineStep1.On ["ev"]).Do "a2" (some 2)).2.triggers "ev" = some "a2" ∧
      ((engineStep1.On ["ev"]).Do "a2" (some 2)).2.actions "a2" = some 2 ∧
      ((engineStep1.On ["ev"]).Do "a2" (some 2)).2.actionConcurrencyLimits "a2" =
        some (engineStep1.On ["ev"]).concurrencyGroups :=
  do_replaces_bindings (engineStep1.On ["ev"]) "a2" 2 "ev" (by decide) (by decide)

/-- Counterexample to C9 as stated: after binding action `"a1"` and then
action `"a2"` to the same event `"ev"`, the registry holds only `"a2"` — the
first binding was replaced, not appended to an ordered set. -/
theorem event_holds_single_action_counterexample :
    engineStep2.triggers "ev" = some "a2" ∧
      engineStep2.triggers "ev" ≠ some "a1" := by
  decide

/-- Claim C9 (amended): the registry maps each event key to at most one
action key — a later registration on the same event replaces the earlier
binding — and `Send` dispatches exactly that single bound action. -/
theorem send_dispatches_single_bound_action (e : Engine Data A) (ek : String)
    (d : Data) (ak : String) (h : e.triggers ek = some ak) :
    e.Send ek d = (true, some (e.spawnAction ak d).1, (e.spawnAction ak d).2) := by
  simp [Engine.Send, h]

/-- Witness for the amended C9: the rebound event dispatches exactly the
action registered last. -/
theorem send_dispatches_single_bound_action_witness :
    engineStep2.Send "ev" "pay" =
      (true, some (engineStep2.spawnAction "a2" "pay").1,
        (engineStep2.spawnAction "a2" "pay").2) :=
  send_dispatches_single_bound_action engineStep2 "ev" "pay" "a2" (by decide)

end Waffle
